import Mathlib

/-!
Verification development for the disco worker module
(`lib/disco/worker/__init__.py`).

The module implements: the framed control protocol between a worker
process and the disco master (`Worker.send`, `Worker.get_input`,
`Worker.main`), replica failover for logical inputs (`ReplicaIter`,
`InputIter`), composition strategies over input streams (`SerialInput`,
`ParallelInput`, `MergedInput`) and the per-partition output registry
(`Worker.output`, `Worker.send_outputs`).

Each Python construct is embedded shallowly: exceptions become an
explicit error type, generators become functions producing the list of
yielded values, and the mutable iterator state of `ReplicaIter` /
`InputIter` becomes explicit recursion over the list of replica
behaviours.
-/

namespace Disco

/-- Python exception values raised by the worker module: `DataError`
(from `disco.error`, carrying a message and extra information),
`Wait` (from `disco.fileutils`, the retry condition), `ValueError`
(raised by `Worker.send`), and `NameError` (raised by the interpreter
when an unbound global such as `time` is referenced). -/
inductive PyErr where
  | dataError (msg : String) (info : List String)
  | wait
  | valueError (payload : String)
  | nameError (missing : String)
  deriving Repr, DecidableEq

/-! ## Control channel: `Worker.send` (src lines 374-384)

The Python method encodes the payload, writes the frame
`'%s %d %s\n' % (type, len(body), body)` to stderr, then reads the
reply kind `rtype`, the size `rsize` and the body `rbody` from stdin.
The reply is modelled by `Reply`; json encoding/decoding is modelled as
the identity on strings, and `rbody` stands for the decoded
`loads(rbody[:-1])`. -/

/-- Reply frame read from the master on standard input: the reply kind
token `rtype` and the (decoded) reply body `rbody`. -/
structure Reply where
  rtype : String
  rbody : String
  deriving Repr, DecidableEq

/-- Embeds `Worker.send` (src lines 374-384).  Returns the frame written
to stderr together with the call's outcome.  Note the source tests
`if type == 'ERROR'` — the *outbound* kind argument — and not the reply
kind `rtype` it just read from stdin. -/
def send (type payload : String) (reply : Reply) : String × Except PyErr String :=
  (type ++ " " ++ toString payload.length ++ " " ++ payload ++ "\n",
   if type == "ERROR" then .error (.valueError reply.rbody) else .ok reply.rbody)

/-! ## Input-status requests: `Worker.get_input` (src lines 386-395) -/

/-- Embeds `Worker.get_input` (src lines 386-395).  `inputs` is the
decoded `inputs` component of the reply to `send('INP', ['include',
[id]])`: a list of `(id, status, replicas)` triples, each replica being
a `(replica-id, url)` pair.  The method reads `inputs[0]`, raises
`Wait` on status `'busy'`, raises `DataError("Can't handle broken
input", id)` on status `'failed'`, and otherwise returns
`[url for rid, url in replicas]`. -/
def get_input (id : String)
    (inputs : List (String × String × List (String × String))) :
    Except PyErr (List String) :=
  match inputs with
  | [] => .error (.valueError "IndexError")
  | (_i, status, replicas) :: _ =>
    if status == "busy" then .error .wait
    else if status == "failed" then
      .error (.dataError "Can't handle broken input" [id])
    else .ok (replicas.map Prod.snd)

/-! ## Failure classification in `Worker.main` (src lines 339-368)

`Worker.main` wraps the task lifecycle in
`except (DataError, EnvironmentError, MemoryError): cls.send('DAT', ...); raise`
followed by `except Exception: cls.send('ERR', ...); raise`. -/

/-- Classes of exception that can escape the task body inside
`Worker.main`, matching the two `except` clauses at src lines 360-368. -/
inductive ExcClass where
  | dataError
  | environmentError
  | memoryError
  | unexpected
  deriving Repr, DecidableEq

/-- Message kind sent to the master by `Worker.main`'s exception
handlers (src lines 360-368): the first clause catches `DataError`,
`EnvironmentError` and `MemoryError` together and sends `'DAT'`; the
second catches any other `Exception` and sends `'ERR'`. -/
def mainExceptKind : ExcClass → String
  | .dataError => "DAT"
  | .environmentError => "DAT"
  | .memoryError => "DAT"
  | .unexpected => "ERR"

/-- Both handlers in `Worker.main` end with a bare `raise`, so the
exception is re-raised after the report and the process exits
non-zero. -/
def mainReraises : ExcClass → Bool :=
  fun _ => true

/-! ## Output registry: `Worker.output` (src lines 296-309) and
`Worker.send_outputs` (src lines 424-427)

`self.outputs` is a dict from partition label to `Output` instance;
`output` opens a new `Output` only when the partition is absent.
Output instances are modelled by the order in which they were opened
(a fresh natural number per `Output(...)` construction). -/

/-- State of the worker's output registry: the `self.outputs` dict as an
association list from partition label (`none` = Python `None`) to the
`Output` instance that was opened for it, plus the allocator for fresh
instance identities. -/
structure OutState where
  outputs : List (Option String × Nat)
  nextId : Nat
  deriving Repr, DecidableEq

/-- Dict membership test `partition not in self.outputs` (negated). -/
def OutState.lookup (s : OutState) (p : Option String) : Option Nat :=
  (s.outputs.find? (fun q => q.1 = p)).map Prod.snd

/-- Embeds `Worker.output` (src lines 296-309): if the partition is not
in `self.outputs`, open a new `Output` and store it; return the stored
instance.  The boolean records whether a new `Output` was opened by
this call. -/
def outputCall (s : OutState) (p : Option String) : OutState × Nat × Bool :=
  match s.lookup p with
  | some o => (s, o, false)
  | none => (⟨s.outputs ++ [(p, s.nextId)], s.nextId + 1⟩, s.nextId, true)

/-- Runs a sequence of `Worker.output` requests against the registry,
starting from an arbitrary state. -/
def runOutputs (s : OutState) : List (Option String) → OutState
  | [] => s
  | p :: ps => runOutputs (outputCall s p).1 ps

/-- Embeds the close loop of `Worker.send_outputs` (src lines 424-427):
`for output in self.outputs.values(): output.file.close(); ...` — the
sequence of `Output` instances whose file is closed, in dict order. -/
def send_outputs (s : OutState) : List Nat :=
  s.outputs.map Prod.snd

/-- The registry only ever stores instances allocated below `nextId`. -/
def OutState.Bounded (s : OutState) : Prop :=
  ∀ q ∈ s.outputs, q.2 < s.nextId

theorem bounded_outputCall (s : OutState) (p : Option String)
    (h : s.Bounded) : (outputCall s p).1.Bounded := by
  unfold outputCall
  cases hl : s.lookup p with
  | some o => simpa using h
  | none =>
    intro q hq
    simp only [List.mem_append, List.mem_singleton] at hq
    rcases hq with hq | hq
    · exact Nat.lt_succ_of_lt (h q hq)
    · simp [hq]

theorem nodup_outputCall (s : OutState) (p : Option String)
    (hb : s.Bounded) (h : (send_outputs s).Nodup) :
    (send_outputs (outputCall s p).1).Nodup := by
  unfold outputCall
  cases hl : s.lookup p with
  | some o => simpa [send_outputs]
  | none =>
    simp only [send_outputs, List.map_append, List.map_cons, List.map_nil]
    rw [List.nodup_append]
    refine ⟨h, List.nodup_singleton _, ?_⟩
    intro a ha hb'
    simp only [List.mem_singleton] at hb'
    subst hb'
    simp only [send_outputs, List.mem_map] at ha
    rcases ha with ⟨q, hq, hq2⟩
    exact absurd hq2 (Nat.ne_of_lt (hb q hq))

theorem bounded_runOutputs (s : OutState) (ps : List (Option String))
    (h : s.Bounded) : (runOutputs s ps).Bounded := by
  induction ps generalizing s with
  | nil => exact h
  | cons p ps ih => exact ih _ (bounded_outputCall s p h)

theorem nodup_runOutputs (s : OutState) (ps : List (Option String))
    (hb : s.Bounded) (h : (send_outputs s).Nodup) :
    (send_outputs (runOutputs s ps)).Nodup := by
  induction ps generalizing s with
  | nil => exact h
  | cons p ps ih =>
    exact ih _ (bounded_outputCall s p hb) (nodup_outputCall s p hb h)

/-! ## Replica failover: `ReplicaIter` (src lines 445-466) and
`InputIter` (src lines 468-494), consumed by `Input.__iter__`
(src lines 515-523)

A physical replica is modelled by its URL together with its observable
behaviour when opened: `open(url)` either raises `DataError`
immediately (`openFail`), or yields a record stream that delivers
`recs` and then either raises `DataError` mid-read (`fails = true`) or
ends cleanly with `StopIteration` (`fails = false`).

`ReplicaIter.next` draws the not-yet-`used` URLs in order; when none
remains it calls `inp.unavailable(self.used)` (only when the input is
an `IDedInput`, i.e. `self.inp` is set) and raises `StopIteration`,
which `InputIter.swap` converts into
`DataError("Exhausted all available replicas", list(self.urls.used))`.

`InputIter.swap` opens the next replica and wraps it in
`skip(iter, self.last + 1)`, a `dropwhile` discarding every
`(position, record)` pair with position `< last + 1`; an `open` that
raises `DataError` makes `swap` recurse to the next replica.

`InputIter.next` pulls `(self.last, item)` from the current stream and
returns `item`; a `DataError` from the pull is caught, `swap()` is
called, and the method then falls off its end — returning Python
`None`, which the consuming `for` loop yields as a record.  Delivered
values are therefore `Option α`: `some a` for a real record, `none`
for the `None` produced by this swap path. -/

/-- Observable behaviour of `open(url)` for one replica. -/
inductive RepBehavior (α : Type) where
  | openFail
  | stream (recs : List α) (fails : Bool)
  deriving Repr, DecidableEq

/-- One replica: its URL and its behaviour when opened. -/
structure Rep (α : Type) where
  url : String
  behavior : RepBehavior α
  deriving Repr, DecidableEq

/-- Whether `open(url)` succeeds for this replica (returns a stream
rather than raising `DataError` at open time). -/
def Rep.opens {α : Type} (r : Rep α) : Bool :=
  match r.behavior with
  | .openFail => false
  | .stream _ _ => true

/-- Whether this replica eventually raises `DataError` (either at open
time or mid-read after its records). -/
def Rep.failing {α : Type} (r : Rep α) : Bool :=
  match r.behavior with
  | .openFail => true
  | .stream _ fails => fails

/-- Outcome of iterating one `Input` to completion: either the
underlying stream ended cleanly with `StopIteration` (`ok`), or a
`DataError` escaped (`dataError`), carrying the values delivered
before the end, the payloads of the `unavailable` reports sent to the
master, and the `tried` URL set attached to the final `DataError`. -/
inductive RunResult (α : Type) where
  | ok (delivered : List (Option α))
  | dataError (delivered : List (Option α)) (unavailableReports : List (List String))
      (tried : List String)
  deriving Repr, DecidableEq

/-- Values delivered before the iteration ended. -/
def RunResult.delivered {α : Type} : RunResult α → List (Option α)
  | .ok d => d
  | .dataError d _ _ => d

/-- Payloads of the `unavailable` reports issued during the run. -/
def RunResult.reports {α : Type} : RunResult α → List (List String)
  | .ok _ => []
  | .dataError _ ev _ => ev

/-- Prepends earlier deliveries to a run's result. -/
def RunResult.prepend {α : Type} (d : List (Option α)) : RunResult α → RunResult α
  | .ok d' => .ok (d ++ d')
  | .dataError d' ev u => .dataError (d ++ d') ev (u)

/-- Embeds the combined `ReplicaIter` / `InputIter` / `Input.__iter__`
loop (src lines 445-523).  `pos = self.last + 1` is the next position
to deliver, `reps` the replicas `ReplicaIter` has yet to hand out,
`hasInp` whether the input is an `IDedInput` (so exhaustion is
reported via `unavailable`), and `used` the URLs already tried.

The equations follow the source:
* no replica left — `ReplicaIter.next` calls `unavailable(used)` when
  `self.inp` is set, then raises `StopIteration`, which `swap` turns
  into `DataError("Exhausted all available replicas", used)`;
* `open` fails — `swap` catches the `DataError` and recurses on the
  next replica, delivering nothing;
* `open` succeeds — `skip` discards positions `< pos`, so the stream
  delivers `recs.drop pos` (as `some` values) and `last` advances to
  `recs.length - 1` when anything was delivered.  A clean end
  (`fails = false`) raises `StopIteration`, ending the iteration with
  `ok`.  A mid-read `DataError` is caught by `InputIter.next`, which
  calls `swap()`: if some later replica opens, `next` returns Python
  `None` (one `none` in the output) and iteration continues on that
  replica; if no later replica opens, the exhaustion `DataError`
  propagates. -/
def runFrom {α : Type} (pos : Nat) (reps : List (Rep α)) (hasInp : Bool)
    (used : List String) : RunResult α :=
  match reps with
  | [] => .dataError [] (if hasInp then [used] else []) used
  | r :: rest =>
    match r.behavior with
    | .openFail => runFrom pos rest hasInp (used ++ [r.url])
    | .stream recs fails =>
      let rem : List (Option α) := (recs.drop pos).map some
      if fails then
        let sep : List (Option α) := if rest.any Rep.opens then [none] else []
        (runFrom (max pos recs.length) rest hasInp (used ++ [r.url])).prepend (rem ++ sep)
      else .ok rem

/-- One `Input` as configured by `Input.__init__` / `InputIter.__init__`
(src lines 468-473, 512-513): whether it is a master-resolved
`IDedInput`, the replicas its `ReplicaIter` will hand out over the
whole run, and the `start` position (`self.last = start - 1`). -/
structure InputSpec (α : Type) where
  hasInp : Bool
  reps : List (Rep α)
  start : Nat
  deriving Repr, DecidableEq

/-- Runs `Input.__iter__` (src lines 515-523) to completion on one
input: `InputIter.__init__` performs the first `swap()` (which skips
positions `< start` and emits nothing), then records are pulled until
`StopIteration` or an uncaught `DataError`. -/
def Input.run {α : Type} (i : InputSpec α) : RunResult α :=
  runFrom i.start i.reps i.hasInp []

/-- An input backed by a single healthy replica holding `recs`. -/
def goodInput {α : Type} (recs : List α) : InputSpec α :=
  ⟨false, [⟨"url", .stream recs false⟩], 0⟩

/-! ## Serial composition: `SerialInput` (src lines 568-578) -/

/-- Embeds `SerialInput.__iter__` (src lines 575-578): iterate
`Input(input)` for each input in order, yielding every record; a
`DataError` escaping one input aborts the whole serial iteration. -/
def serialRun {α : Type} : List (InputSpec α) → RunResult α
  | [] => .ok []
  | i :: rest =>
    match Input.run i with
    | .ok d => (serialRun rest).prepend d
    | .dataError d ev u => .dataError d ev u

/-! ## The module's imports and the `time.sleep` calls
(src line 57, lines 515-523, 589-599)

Line 57 of the source reads `import cPickle, os, sys, traceback`;
the name `time` is bound nowhere in the module, yet
`Input.__iter__` and `ParallelInput.__iter__` call
`time.sleep(self.WAIT_TIMEOUT)` on their all-busy paths.  Python
resolves `time` through the local, module and builtin scopes and, all
failing, raises `NameError`. -/

/-- Names bound at module level by the import statement on src line 57. -/
def moduleImports : List String :=
  ["cPickle", "os", "sys", "traceback"]

/-- Outcome of evaluating `time.sleep(seconds)` inside this module. -/
inductive SleepOutcome where
  | slept (seconds : Nat)
  | raised (e : PyErr)
  deriving Repr, DecidableEq

/-- Embeds `Input.WAIT_TIMEOUT` (src line 510). -/
def WAIT_TIMEOUT : Nat := 1

/-- Evaluates `time.sleep(seconds)`: if `time` were bound at module
level the process would pause, otherwise the interpreter raises
`NameError: name 'time' is not defined`. -/
def timeSleep (seconds : Nat) : SleepOutcome :=
  if moduleImports.contains "time" then .slept seconds
  else .raised (.nameError "time")

/-- Events observable when pulling from one live input iterator:
a delivered record, or a raised `Wait` (`busy`); the end of the list
is `StopIteration`. -/
inductive PullEv (α : Type) where
  | item (a : α)
  | busy
  deriving Repr, DecidableEq

/-- Runs `for item in iter: yield item` over one iterator: returns the
items yielded before the loop either completed (`none`) or was
interrupted by a raised `Wait`, in which case the iterator's remaining
events are returned for the retry. -/
def forLoop {α : Type} : List (PullEv α) → List α × Option (List (PullEv α))
  | [] => ([], none)
  | .item a :: rest =>
    let p := forLoop rest
    (a :: p.1, p.2)
  | .busy :: rest => ([], some rest)

/-- Embeds `ParallelInput.__iter__` (src lines 589-599) over
deterministic iterators.  `iters` is kept in reverse Python order, so
`iters.pop()` (pop from the Python end) is the head and
`iters.insert(0, iter)` appends at the tail.  On a `Wait` with no
other live iterator, the handler evaluates
`time.sleep(self.WAIT_TIMEOUT)`.  The result is `none` when the fuel
runs out, otherwise the records yielded together with the exception
(if any) that escaped the generator. -/
def parallelRun {α : Type} : Nat → List (List (PullEv α)) →
    Option (List α × Option PyErr)
  | _, [] => some ([], none)
  | 0, _ :: _ => none
  | fuel + 1, iter :: rest =>
    match forLoop iter with
    | (d, none) =>
      (parallelRun fuel rest).map (fun p => (d ++ p.1, p.2))
    | (d, some k) =>
      if rest.isEmpty then
        match timeSleep WAIT_TIMEOUT with
        | .raised e => some (d, some e)
        | .slept _ =>
          (parallelRun fuel (rest ++ [k])).map (fun p => (d ++ p.1, p.2))
      else
        (parallelRun fuel (rest ++ [k])).map (fun p => (d ++ p.1, p.2))

/-- Embeds the retry loop of `Input.__iter__` (src lines 515-523) over
one deterministic iterator: on any raised `Wait` the handler evaluates
`time.sleep(self.WAIT_TIMEOUT)` and retries the same iterator. -/
def inputLoopRun {α : Type} : Nat → List (PullEv α) →
    Option (List α × Option PyErr)
  | 0, _ => none
  | fuel + 1, iter =>
    match forLoop iter with
    | (d, none) => some (d, none)
    | (d, some k) =>
      match timeSleep WAIT_TIMEOUT with
      | .raised e => some (d, some e)
      | .slept _ => (inputLoopRun fuel k).map (fun p => (d ++ p.1, p.2))

/-! ## Merged composition: `MergedInput.__iter__` (src lines 630-638)
with `ParallelInput.couple` / `fetch` / `fill` (src lines 601-628)

`MergedInput.__iter__` builds one `couple` generator per input and
hands them to `disco.future.merge`.  `disco.future` is not part of
this repository's sources; per spec section 4.4 the merge "maintains
one buffered head record per stream …; (1) for every stream whose
head is empty, attempt to refill it …, treating exhaustion as
permanent removal of that stream; (2) once all live heads are filled,
emit the smallest head by comparison key, mark its slot empty, and
repeat".

In the deterministic, no-busy setting the state is one slot per
stream: the buffered head (`none` stands for the `Wait` sentinel the
source stores in `heads`) and the remaining records of that stream's
iterator.  `fetch` below embeds `ParallelInput.fetch` (src lines
609-621) in that setting — every empty head is refilled from its own
iterator, an exhausted iterator leaves its head empty — and `pickMin`
is *modelled from the spec*: it embeds the emit-smallest-head step of
`disco.future.merge` composed with `couple` (which clears the emitted
slot back to the `Wait` sentinel, src lines 601-607). -/

/-- One merge slot: the buffered head (`none` = the `Wait` sentinel)
and the remaining records of the stream's iterator. -/
abbrev Slot (α : Type) := Option α × List α

/-- Records held by a slot: the buffered head, then the iterator. -/
def slotElems {α : Type} (sl : Slot α) : List α :=
  sl.1.toList ++ sl.2

/-- All records held in the merge state. -/
def elems {α : Type} (s : List (Slot α)) : List α :=
  s.foldr (fun sl acc => slotElems sl ++ acc) []

/-- Refills one slot whose head is empty from its own iterator
(the body of `ParallelInput.fetch` for one index, src lines 611-620);
an exhausted iterator leaves the head empty. -/
def fetchSlot {α : Type} : Slot α → Slot α
  | (none, x :: xs) => (some x, xs)
  | sl => sl

/-- Embeds `ParallelInput.fetch` (src lines 609-621) in the no-busy
deterministic setting: every slot whose head is the `Wait` sentinel is
refilled from its iterator. -/
def fetch {α : Type} (s : List (Slot α)) : List (Slot α) :=
  s.map fetchSlot

/-- Modelled from the spec: `disco.future.merge` is not under `src/`;
spec section 4.4 prescribes "once all live heads are filled, emit the
smallest head by comparison key, mark its slot empty".  `pickMin`
returns the smallest buffered head (the first one on ties) together
with the state in which that slot's head is cleared (the `heads[n] =
Wait` step of `couple`, src line 606); `none` when no head is
buffered. -/
def pickMin {α : Type} [LinearOrder α] : List (Slot α) → Option (α × List (Slot α))
  | [] => none
  | (none, it) :: rest =>
    match pickMin rest with
    | none => none
    | some (w, rest') => some (w, (none, it) :: rest')
  | (some v, it) :: rest =>
    match pickMin rest with
    | none => some (v, (none, it) :: rest)
    | some (w, rest') =>
      if v ≤ w then some (v, (none, it) :: rest)
      else some (w, (some v, it) :: rest')

/-- Total number of records still held in the merge state; each emitted
record decreases it by one, so it bounds the number of steps. -/
def totalCount {α : Type} (s : List (Slot α)) : Nat :=
  (elems s).length

/-- The merge loop: refill empty heads, emit the smallest head, repeat
until no stream holds a record.  `fuel` makes the recursion
structural; `totalCount` fuel suffices. -/
def mergedRun {α : Type} [LinearOrder α] : Nat → List (Slot α) → List α
  | 0, _ => []
  | fuel + 1, s =>
    match pickMin (fetch s) with
    | none => []
    | some (v, s') => v :: mergedRun fuel s'

/-- Embeds `MergedInput.__iter__` (src lines 634-638) over
deterministic record streams: every head starts as the `Wait` sentinel
(`heads = [Wait] * len(iters)`, src line 637) and the merge runs to
exhaustion. -/
def mergedInput {α : Type} [LinearOrder α] (inputs : List (List α)) : List α :=
  mergedRun (totalCount (inputs.map (fun l => ((none : Option α), l))))
    (inputs.map (fun l => (none, l)))

/-! ## Correctness of the merge machinery -/

theorem slotElems_fetchSlot {α : Type} (sl : Slot α) :
    slotElems (fetchSlot sl) = slotElems sl := by
  match sl with
  | (none, []) => rfl
  | (none, _ :: _) => rfl
  | (some _, _) => rfl

theorem elems_cons {α : Type} (sl : Slot α) (s : List (Slot α)) :
    elems (sl :: s) = slotElems sl ++ elems s := rfl

theorem elems_fetch {α : Type} (s : List (Slot α)) : elems (fetch s) = elems s := by
  induction s with
  | nil => rfl
  | cons sl s ih =>
    simp only [fetch, List.map_cons] at *
    rw [elems_cons, elems_cons, slotElems_fetchSlot, ih]

theorem mem_elems {α : Type} (s : List (Slot α)) (x : α) :
    x ∈ elems s ↔ ∃ sl ∈ s, x ∈ slotElems sl := by
  induction s with
  | nil => simp [elems]
  | cons sl s ih => simp [elems_cons, ih]

theorem pickMin_none_heads {α : Type} [LinearOrder α] :
    ∀ (s : List (Slot α)), pickMin s = none → ∀ sl ∈ s, sl.1 = none := by
  intro s
  induction s with
  | nil => intro _ sl hsl; simp at hsl
  | cons hd rest ih =>
    obtain ⟨h?, it⟩ := hd
    cases h? with
    | none =>
      cases hq : pickMin rest with
      | none =>
        intro _ sl hsl
        rcases List.mem_cons.mp hsl with rfl | hsl
        · rfl
        · exact ih hq sl hsl
      | some p => intro h; simp [pickMin, hq] at h
    | some v =>
      intro h
      cases hq : pickMin rest with
      | none => simp [pickMin, hq] at h
      | some p =>
        obtain ⟨w, rest'⟩ := p
        by_cases hle : v ≤ w <;> simp [pickMin, hq, hle] at h

theorem fetch_dead {α : Type} (s : List (Slot α)) :
    ∀ sl ∈ fetch s, sl.1 = none → sl.2 = [] := by
  intro sl hsl h1
  simp only [fetch, List.mem_map] at hsl
  obtain ⟨t, _, rfl⟩ := hsl
  match t with
  | (none, []) => rfl
  | (none, x :: xs) => simp [fetchSlot] at h1
  | (some v, it) => simp [fetchSlot] at h1

theorem elems_nil_of_dead {α : Type} (s : List (Slot α))
    (h : ∀ sl ∈ s, sl.1 = none ∧ sl.2 = []) : elems s = [] := by
  induction s with
  | nil => rfl
  | cons sl rest ih =>
    obtain ⟨h1, h2⟩ := h sl (by simp)
    rw [elems_cons, ih (fun t ht => h t (by simp [ht]))]
    simp [slotElems, h1, h2]

theorem pickMin_perm {α : Type} [LinearOrder α] :
    ∀ (s : List (Slot α)) (v : α) (s' : List (Slot α)),
      pickMin s = some (v, s') → (elems s).Perm (v :: elems s') := by
  intro s
  induction s with
  | nil => intro v s' h; simp [pickMin] at h
  | cons hd rest ih =>
    obtain ⟨h?, it⟩ := hd
    intro v s' h
    cases h? with
    | none =>
      cases hq : pickMin rest with
      | none => simp [pickMin, hq] at h
      | some p =>
        obtain ⟨w, rest'⟩ := p
        simp only [pickMin, hq, Option.some.injEq, Prod.mk.injEq] at h
        obtain ⟨rfl, rfl⟩ := h
        rw [elems_cons, elems_cons]
        exact ((ih _ _ hq).append_left _).trans List.perm_middle
    | some u =>
      cases hq : pickMin rest with
      | none =>
        simp only [pickMin, hq, Option.some.injEq, Prod.mk.injEq] at h
        obtain ⟨rfl, rfl⟩ := h
        rw [elems_cons, elems_cons]
        exact List.Perm.refl _
      | some p =>
        obtain ⟨w, rest'⟩ := p
        by_cases hle : u ≤ w
        · simp only [pickMin, hq, hle, if_true, Option.some.injEq, Prod.mk.injEq] at h
          obtain ⟨rfl, rfl⟩ := h
          rw [elems_cons, elems_cons]
          exact List.Perm.refl _
        · simp only [pickMin, hq, hle, if_false, Option.some.injEq, Prod.mk.injEq] at h
          obtain ⟨rfl, rfl⟩ := h
          rw [elems_cons, elems_cons]
          exact ((ih _ _ hq).append_left _).trans List.perm_middle

theorem pickMin_le_heads {α : Type} [LinearOrder α] :
    ∀ (s : List (Slot α)) (v : α) (s' : List (Slot α)),
      pickMin s = some (v, s') →
      ∀ sl ∈ s, ∀ w, sl.1 = some w → v ≤ w := by
  intro s
  induction s with
  | nil => intro v s' h; simp [pickMin] at h
  | cons hd rest ih =>
    obtain ⟨h?, it⟩ := hd
    intro v s' h sl hsl w hw
    cases h? with
    | none =>
      cases hq : pickMin rest with
      | none => simp [pickMin, hq] at h
      | some p =>
        obtain ⟨w0, rest'⟩ := p
        simp only [pickMin, hq, Option.some.injEq, Prod.mk.injEq] at h
        obtain ⟨rfl, rfl⟩ := h
        rcases List.mem_cons.mp hsl with rfl | hsl
        · simp at hw
        · exact ih _ _ hq sl hsl w hw
    | some u =>
      cases hq : pickMin rest with
      | none =>
        simp only [pickMin, hq, Option.some.injEq, Prod.mk.injEq] at h
        obtain ⟨rfl, rfl⟩ := h
        rcases List.mem_cons.mp hsl with rfl | hsl
        · simp only [Option.some.injEq] at hw; subst hw; exact le_refl _
        · have := pickMin_none_heads rest hq sl hsl
          rw [this] at hw; exact absurd hw (by simp)
      | some p =>
        obtain ⟨w0, rest'⟩ := p
        by_cases hle : u ≤ w0
        · simp only [pickMin, hq, hle, if_true, Option.some.injEq, Prod.mk.injEq] at h
          obtain ⟨rfl, rfl⟩ := h
          rcases List.mem_cons.mp hsl with rfl | hsl
          · simp only [Option.some.injEq] at hw; subst hw; exact le_refl _
          · exact le_trans hle (ih _ _ hq sl hsl w hw)
        · simp only [pickMin, hq, hle, if_false, Option.some.injEq, Prod.mk.injEq] at h
          obtain ⟨rfl, rfl⟩ := h
          rcases List.mem_cons.mp hsl with rfl | hsl
          · simp only [Option.some.injEq] at hw; subst hw
            exact le_of_not_le hle
          · exact ih _ _ hq sl hsl w hw

/-- Invariant of the merge state: each slot's remaining iterator is
non-decreasing, and a buffered head is a lower bound for its own
iterator (each stream is individually sorted). -/
def SInv {α : Type} [LinearOrder α] (s : List (Slot α)) : Prop :=
  ∀ sl ∈ s, sl.2.Sorted (· ≤ ·) ∧ ∀ v, sl.1 = some v → ∀ x ∈ sl.2, v ≤ x

theorem sinv_fetch {α : Type} [LinearOrder α] (s : List (Slot α))
    (h : SInv s) : SInv (fetch s) := by
  intro sl hsl
  simp only [fetch, List.mem_map] at hsl
  obtain ⟨t, ht, rfl⟩ := hsl
  obtain ⟨hsort, hbound⟩ := h t ht
  match t with
  | (none, []) =>
    refine ⟨List.sorted_nil, ?_⟩
    intro v hv
    simp [fetchSlot] at hv
  | (none, x :: xs) =>
    rw [List.sorted_cons] at hsort
    refine ⟨hsort.2, ?_⟩
    intro v hv
    simp only [fetchSlot, Option.some.injEq] at hv
    subst hv
    exact hsort.1
  | (some u, it) => exact ⟨hsort, hbound⟩

theorem sinv_pickMin {α : Type} [LinearOrder α] :
    ∀ (s : List (Slot α)) (v : α) (s' : List (Slot α)),
      pickMin s = some (v, s') → SInv s → SInv s' := by
  intro s
  induction s with
  | nil => intro v s' h; simp [pickMin] at h
  | cons hd rest ih =>
    obtain ⟨h?, it⟩ := hd
    intro v s' h hs
    have hhd := hs (h?, it) (by simp)
    have hrest : SInv rest := fun t ht => hs t (by simp [ht])
    cases h? with
    | none =>
      cases hq : pickMin rest with
      | none => simp [pickMin, hq] at h
      | some p =>
        obtain ⟨w, rest'⟩ := p
        simp only [pickMin, hq, Option.some.injEq, Prod.mk.injEq] at h
        obtain ⟨rfl, rfl⟩ := h
        intro sl hsl
        rcases List.mem_cons.mp hsl with rfl | hsl
        · exact ⟨hhd.1, by simp⟩
        · exact ih _ _ hq hrest sl hsl
    | some u =>
      cases hq : pickMin rest with
      | none =>
        simp only [pickMin, hq, Option.some.injEq, Prod.mk.injEq] at h
        obtain ⟨rfl, rfl⟩ := h
        intro sl hsl
        rcases List.mem_cons.mp hsl with rfl | hsl
        · exact ⟨hhd.1, by simp⟩
        · exact hrest sl hsl
      | some p =>
        obtain ⟨w, rest'⟩ := p
        by_cases hle : u ≤ w
        · simp only [pickMin, hq, hle, if_true, Option.some.injEq, Prod.mk.injEq] at h
          obtain ⟨rfl, rfl⟩ := h
          intro sl hsl
          rcases List.mem_cons.mp hsl with rfl | hsl
          · exact ⟨hhd.1, by simp⟩
          · exact hrest sl hsl
        · simp only [pickMin, hq, hle, if_false, Option.some.injEq, Prod.mk.injEq] at h
          obtain ⟨rfl, rfl⟩ := h
          intro sl hsl
          rcases List.mem_cons.mp hsl with rfl | hsl
          · exact hhd
          · exact ih _ _ hq hrest sl hsl

theorem pickMin_min_elems {α : Type} [LinearOrder α] (s : List (Slot α))
    (hs : SInv s) (hdead : ∀ sl ∈ s, sl.1 = none → sl.2 = [])
    (v : α) (s' : List (Slot α)) (h : pickMin s = some (v, s')) :
    ∀ x ∈ elems s, v ≤ x := by
  intro x hx
  obtain ⟨sl, hsl, hmem⟩ := (mem_elems s x).mp hx
  obtain ⟨h?, it⟩ := sl
  cases h? with
  | none =>
    have hit : it = [] := hdead (none, it) hsl rfl
    subst hit
    simp [slotElems] at hmem
  | some w =>
    have hvw : v ≤ w := pickMin_le_heads s v s' h (some w, it) hsl w rfl
    simp only [slotElems, Option.toList_some, List.cons_append, List.nil_append,
      List.mem_cons] at hmem
    rcases hmem with rfl | hmem
    · exact hvw
    · exact le_trans hvw ((hs (some w, it) hsl).2 w rfl x hmem)

theorem mem_mergedRun {α : Type} [LinearOrder α] :
    ∀ (fuel : Nat) (s : List (Slot α)) (x : α),
      x ∈ mergedRun fuel s → x ∈ elems s := by
  intro fuel
  induction fuel with
  | zero => intro s x hx; simp [mergedRun] at hx
  | succ fuel ih =>
    intro s x hx
    cases hq : pickMin (fetch s) with
    | none => simp [mergedRun, hq] at hx
    | some p =>
      obtain ⟨v, s'⟩ := p
      have hperm := pickMin_perm (fetch s) v s' hq
      rw [elems_fetch] at hperm
      simp only [mergedRun, hq, List.mem_cons] at hx
      rcases hx with rfl | hx
      · exact hperm.symm.subset (by simp)
      · exact hperm.symm.subset (by simp [ih s' x hx])

theorem mergedRun_perm {α : Type} [LinearOrder α] :
    ∀ (fuel : Nat) (s : List (Slot α)), totalCount s ≤ fuel →
      (mergedRun fuel s).Perm (elems s) := by
  intro fuel
  induction fuel with
  | zero =>
    intro s hs
    have : elems s = [] := by
      have := Nat.le_zero.mp hs
      exact List.length_eq_zero.mp this
    rw [this]
    exact List.Perm.refl _
  | succ fuel ih =>
    intro s hs
    cases hq : pickMin (fetch s) with
    | none =>
      have hheads := pickMin_none_heads (fetch s) hq
      have : elems (fetch s) = [] :=
        elems_nil_of_dead _ (fun sl hsl =>
          ⟨hheads sl hsl, fetch_dead s sl hsl (hheads sl hsl)⟩)
      rw [← elems_fetch s, this]
      simp [mergedRun, hq]
    | some p =>
      obtain ⟨v, s'⟩ := p
      have hperm := pickMin_perm (fetch s) v s' hq
      rw [elems_fetch] at hperm
      have hlen : totalCount s' ≤ fuel := by
        have := hperm.length_eq
        simp only [List.length_cons] at this
        have hts : totalCount s = (elems s').length + 1 := this
        have hts' : totalCount s' = (elems s').length := rfl
        omega
      simp only [mergedRun, hq]
      exact ((ih s' hlen).cons v).trans hperm.symm

theorem mergedRun_sorted {α : Type} [LinearOrder α] :
    ∀ (fuel : Nat) (s : List (Slot α)), SInv s →
      (mergedRun fuel s).Sorted (· ≤ ·) := by
  intro fuel
  induction fuel with
  | zero => intro s _; simp [mergedRun]
  | succ fuel ih =>
    intro s hs
    cases hq : pickMin (fetch s) with
    | none => simp [mergedRun, hq]
    | some p =>
      obtain ⟨v, s'⟩ := p
      have hsf : SInv (fetch s) := sinv_fetch s hs
      have hs' : SInv s' := sinv_pickMin _ _ _ hq hsf
      have hperm := pickMin_perm (fetch s) v s' hq
      simp only [mergedRun, hq, List.sorted_cons]
      refine ⟨?_, ih s' hs'⟩
      intro b hb
      have hb' : b ∈ elems (fetch s) :=
        hperm.symm.subset (by simp [mem_mergedRun fuel s' b hb])
      exact pickMin_min_elems (fetch s) hsf (fetch_dead s) v s' hq b hb'

theorem elems_init {α : Type} (inputs : List (List α)) :
    elems (inputs.map fun l => ((none : Option α), l)) = inputs.flatten := by
  induction inputs with
  | nil => rfl
  | cons l rest ih =>
    simp only [List.map_cons, elems_cons, List.flatten_cons, ih]
    rfl

/-- C4 (`confirmed`): for input streams that are each individually
non-decreasing, Merged composition yields a globally non-decreasing
sequence that is a permutation of all the inputs' records — the k-way
merge of the streams.  (The concrete instance
`mergedInput [[1,3,5],[2,4,6]] = [1,2,3,4,5,6]` is checked in the
witness.) -/
theorem merged_sorted_perm {α : Type} [LinearOrder α] (inputs : List (List α))
    (h : ∀ l ∈ inputs, l.Sorted (· ≤ ·)) :
    (mergedInput inputs).Sorted (· ≤ ·) ∧
    (mergedInput inputs).Perm inputs.flatten := by
  have hsinv : SInv (inputs.map fun l => ((none : Option α), l)) := by
    intro sl hsl
    simp only [List.mem_map] at hsl
    obtain ⟨l, hl, rfl⟩ := hsl
    exact ⟨h l hl, by simp⟩
  constructor
  · exact mergedRun_sorted _ _ hsinv
  · have := mergedRun_perm (totalCount (inputs.map fun l => ((none : Option α), l)))
      (inputs.map fun l => ((none : Option α), l)) (le_refl _)
    rw [elems_init] at this
    exact this

/-- Witness for C4 at the spec's concrete instance `A = [1,3,5]`,
`B = [2,4,6]`: both inputs are sorted, the merged output is sorted and
a permutation of all records, and it equals exactly
`[1,2,3,4,5,6]`. -/
theorem merged_sorted_perm_witness :
    (∀ l ∈ [[1, 3, 5], [2, 4, 6]], l.Sorted (· ≤ ·)) ∧
    ((mergedInput [[1, 3, 5], [2, 4, 6]]).Sorted (· ≤ ·) ∧
     (mergedInput [[1, 3, 5], [2, 4, 6]]).Perm
       ([[1, 3, 5], [2, 4, 6]] : List (List Nat)).flatten) ∧
    mergedInput [[1, 3, 5], [2, 4, 6]] = [1, 2, 3, 4, 5, 6] :=
  ⟨by decide, merged_sorted_perm [[1, 3, 5], [2, 4, 6]] (by decide), by decide⟩

/-! ## Helper lemmas -/

theorem reports_prepend {α : Type} (d : List (Option α)) (r : RunResult α) :
    (r.prepend d).reports = r.reports := by
  cases r <;> rfl

theorem reports_runFrom_literal {α : Type} (pos : Nat) (reps : List (Rep α))
    (used : List String) : (runFrom pos reps false used).reports = [] := by
  induction reps generalizing pos used with
  | nil => rfl
  | cons r rest ih =>
    cases hb : r.behavior with
    | openFail => simp [runFrom, hb, ih]
    | stream recs fails =>
      cases fails with
      | false => simp [runFrom, hb, RunResult.reports]
      | true => simp [runFrom, hb, reports_prepend, ih]

theorem runFrom_allfail {α : Type} (hasInp : Bool) (reps : List (Rep α)) :
    ∀ (pos : Nat) (used : List String), (∀ r ∈ reps, r.failing = true) →
    ∃ d, runFrom pos reps hasInp used =
      .dataError d (if hasInp then [used ++ reps.map Rep.url] else [])
        (used ++ reps.map Rep.url) := by
  induction reps with
  | nil => intro pos used _; exact ⟨[], by simp [runFrom]⟩
  | cons r rest ih =>
    intro pos used h
    have hr : r.failing = true := h r (by simp)
    have hrest : ∀ x ∈ rest, x.failing = true := fun x hx => h x (by simp [hx])
    cases hb : r.behavior with
    | openFail =>
      obtain ⟨d, hd⟩ := ih pos (used ++ [r.url]) hrest
      refine ⟨d, ?_⟩
      simp only [runFrom, hb]
      simpa using hd
    | stream recs fails =>
      have hf : fails = true := by simpa [Rep.failing, hb] using hr
      subst hf
      obtain ⟨d, hd⟩ := ih (max pos recs.length) (used ++ [r.url]) hrest
      refine ⟨((recs.drop pos).map some ++
        if rest.any Rep.opens then [none] else []) ++ d, ?_⟩
      simp only [runFrom, hb, if_true]
      rw [hd]
      simp [RunResult.prepend]

theorem forLoop_items_busy {α : Type} (xs : List α) (ys : List (PullEv α)) :
    forLoop (xs.map PullEv.item ++ .busy :: ys) = (xs, some ys) := by
  induction xs with
  | nil => rfl
  | cons x xs ih => simp [forLoop, ih]

theorem outputCall_idem (s : OutState) (p : Option String) :
    outputCall (outputCall s p).1 p = ((outputCall s p).1, (outputCall s p).2.1, false) := by
  unfold outputCall OutState.lookup
  cases hl : (s.outputs.find? (fun q => q.1 = p)) with
  | some q => simp [hl]
  | none =>
    simp only [hl, Option.map_none']
    rw [List.find?_append, hl]
    simp

/-! ## Claim theorems -/

/-- C1 (`code_bug`): the replay-safety claim for `InputIter` fails on
the code.  With replica `"a"` delivering record `0` and then raising
`DataError`, and replica `"b"` holding the full sequence `[0, 1]`, the
swap does skip the new stream past every position `≤ 0` (record `1` is
neither duplicated nor dropped), but `InputIter.next` catches the
`DataError`, calls `swap()`, and then falls off its end, returning
Python `None`; the iteration therefore delivers `[some 0, none, some
1]` instead of the original sequence `[some 0, some 1]`. -/
theorem inputIter_swap_delivers_none :
    Input.run (⟨false, [⟨"a", .stream [0] true⟩, ⟨"b", .stream [0, 1] false⟩], 0⟩ :
        InputSpec Nat) = .ok [some 0, none, some 1] ∧
    [some 0, none, some 1] ≠ [0, 1].map some := by
  exact ⟨rfl, by decide⟩

/-- C2 (`code_bug`): `Worker.send` tests `if type == 'ERROR'` — the
*outbound* kind argument — instead of the reply kind `rtype` it just
read.  A call `send('MSG', ...)` whose reply has kind `'ERROR'`
returns the decoded reply body normally, and a call with outbound kind
`'ERROR'` raises `ValueError` regardless of the reply kind. -/
theorem send_checks_outbound_kind :
    (send "MSG" "x" ⟨"ERROR", "boom"⟩).2 = .ok "boom" ∧
    (send "ERROR" "x" ⟨"OK", "fine"⟩).2 = .error (.valueError "fine") := by
  exact ⟨rfl, rfl⟩

/-- C3 (`confirmed`): for an `IDedInput` all of whose replicas fail
(at open or mid-read), the iteration ends in
`DataError("Exhausted all available replicas", tried)` and, before
raising, reports exhaustion to the master via `unavailable` exactly
once, with the full list of tried URLs as payload. -/
theorem ided_input_exhaustion (reps : List (Rep Nat)) (start : Nat)
    (h : ∀ r ∈ reps, r.failing = true) :
    ∃ d, Input.run ⟨true, reps, start⟩ =
      .dataError d [reps.map Rep.url] (reps.map Rep.url) := by
  obtain ⟨d, hd⟩ := runFrom_allfail true reps start [] h
  exact ⟨d, by simpa using hd⟩

/-- Witness for C3 at a concrete input: replica `"a"` fails at open,
replica `"b"` delivers one record and then fails mid-read. -/
theorem ided_input_exhaustion_witness :
    (∀ r ∈ [⟨"a", .openFail⟩, ⟨"b", .stream [5] true⟩], Rep.failing r = true) ∧
    ∃ d, Input.run ⟨true, [⟨"a", .openFail⟩, ⟨"b", .stream [5] true⟩], 0⟩ =
      .dataError d [["a", "b"]] ["a", "b"] :=
  ⟨by decide, ided_input_exhaustion [⟨"a", .openFail⟩, ⟨"b", .stream [5] true⟩] 0 (by decide)⟩

/-- C5 (`code_bug`): the all-busy pause claim fails on the code.  The
module never imports `time` (src line 57), so when every live stream
reports busy — here the single live iterator raises `Wait` after
delivering `xs` — the `except Wait:` handler's call
`time.sleep(self.WAIT_TIMEOUT)` raises `NameError: name 'time' is not
defined` instead of pausing, in both `ParallelInput.__iter__` and
`Input.__iter__`. -/
theorem all_busy_raises_nameError (xs : List Nat) (ys : List (PullEv Nat)) (fuel : Nat) :
    parallelRun (fuel + 1) [xs.map PullEv.item ++ .busy :: ys] =
      some (xs, some (.nameError "time")) ∧
    inputLoopRun (fuel + 1) (xs.map PullEv.item ++ .busy :: ys) =
      some (xs, some (.nameError "time")) ∧
    "time" ∉ moduleImports := by
  refine ⟨?_, ?_, by decide⟩
  · simp [parallelRun, forLoop_items_busy, timeSleep, moduleImports]
  · simp [inputLoopRun, forLoop_items_busy, timeSleep, moduleImports]

/-- C6 (`confirmed`): `Worker.get_input` raises `Wait` when the
reply's status is `'busy'`, raises `DataError("Can't handle broken
input", id)` naming the input when the status is `'failed'`, and for
any other status returns the list of replica URLs. -/
theorem get_input_status_dispatch (id i st : String)
    (reps : List (String × String))
    (rest : List (String × String × List (String × String)))
    (h1 : st ≠ "busy") (h2 : st ≠ "failed") :
    get_input id ((i, "busy", reps) :: rest) = .error .wait ∧
    get_input id ((i, "failed", reps) :: rest) =
      .error (.dataError "Can't handle broken input" [id]) ∧
    get_input id ((i, st, reps) :: rest) = .ok (reps.map Prod.snd) := by
  refine ⟨rfl, rfl, ?_⟩
  simp [get_input, h1, h2]

/-- Witness for C6 at a concrete input with status `'ready'`. -/
theorem get_input_status_dispatch_witness :
    ("ready" ≠ "busy" ∧ "ready" ≠ "failed") ∧
    (get_input "i7" [("i7", "busy", [("r1", "u1")])] = .error .wait ∧
     get_input "i7" [("i7", "failed", [("r1", "u1")])] =
       .error (.dataError "Can't handle broken input" ["i7"]) ∧
     get_input "i7" [("i7", "ready", [("r1", "u1"), ("r2", "u2")])] = .ok ["u1", "u2"]) :=
  ⟨⟨by decide, by decide⟩,
   get_input_status_dispatch "i7" "i7" "ready" [("r1", "u1"), ("r2", "u2")]
     [] (by decide) (by decide)⟩

/-- C7 counterexample: `Worker.main` reports an `EnvironmentError`
with the *same* message kind as a `DataError` — both fall into the
`except (DataError, EnvironmentError, MemoryError):` clause that sends
`'DAT'` — so environment/memory exhaustion does not produce a message
kind distinct from data-level failures. -/
theorem mainExceptKind_env_eq_data :
    mainExceptKind .environmentError = mainExceptKind .dataError := rfl

/-- C7 amended (`corrected`): `Worker.main` reports `DataError`,
`EnvironmentError` and `MemoryError` all under the single kind
`'DAT'`; only exceptions outside these classes get the distinct kind
`'ERR'`; in every case the exception is re-raised, so the process
exits non-zero after reporting. -/
theorem mainExceptKind_classification :
    mainExceptKind .dataError = "DAT" ∧
    mainExceptKind .environmentError = "DAT" ∧
    mainExceptKind .memoryError = "DAT" ∧
    mainExceptKind .unexpected = "ERR" ∧
    "DAT" ≠ "ERR" ∧
    (∀ c, mainReraises c = true) :=
  ⟨rfl, rfl, rfl, rfl, by decide, fun _ => rfl⟩

/-- C8 (`confirmed`): serial composition yields all records of input
0, then all records of input 1, and so on — the concatenation of the
inputs' record sequences — and in particular `[[1,2],[3,4]]` yields
`[1,2,3,4]`. -/
theorem serial_concatenates {α : Type} (inputs : List (List α)) :
    serialRun (inputs.map goodInput) = .ok (inputs.flatten.map some) ∧
    serialRun ([[1, 2], [3, 4]].map goodInput) =
      .ok (([1, 2, 3, 4] : List Nat).map some) := by
  refine ⟨?_, rfl⟩
  induction inputs with
  | nil => rfl
  | cons l rest ih =>
    simp only [List.map_cons, serialRun, Input.run, goodInput, runFrom, List.drop_zero]
    simp [ih, RunResult.prepend]

/-- C9 (`confirmed`): after any sequence of `Worker.output` requests,
a repeated request for the same partition returns the very same
`Output` instance without opening a new one and leaves the registry
unchanged; and `Worker.send_outputs` closes each registered `Output`'s
file exactly once. -/
theorem output_idempotent_close_once (reqs : List (Option String)) (p : Option String) :
    (outputCall (outputCall (runOutputs ⟨[], 0⟩ reqs) p).1 p =
      ((outputCall (runOutputs ⟨[], 0⟩ reqs) p).1,
       (outputCall (runOutputs ⟨[], 0⟩ reqs) p).2.1, false)) ∧
    (send_outputs (outputCall (runOutputs ⟨[], 0⟩ reqs) p).1).Nodup ∧
    ∀ o ∈ send_outputs (outputCall (runOutputs ⟨[], 0⟩ reqs) p).1,
      (send_outputs (outputCall (runOutputs ⟨[], 0⟩ reqs) p).1).count o = 1 := by
  have hb0 : (OutState.mk [] 0).Bounded := by intro q hq; simp at hq
  have hn0 : (send_outputs ⟨[], 0⟩).Nodup := List.nodup_nil
  have hb := bounded_runOutputs ⟨[], 0⟩ reqs hb0
  have hn := nodup_runOutputs ⟨[], 0⟩ reqs hb0 hn0
  have hn' := nodup_outputCall _ p hb hn
  exact ⟨outputCall_idem _ p, hn',
    fun o ho => List.count_eq_one_of_mem hn' ho⟩

/-- C10 (`confirmed`): an `Input` built from a literal URL or URL list
(so `ReplicaIter.inp` is `None`) never sends an `unavailable` report to
the master; when all its URLs fail, the iteration still raises the
exhaustion `DataError`, just without any report. -/
theorem literal_input_no_report (reps : List (Rep Nat)) (start : Nat) :
    (Input.run ⟨false, reps, start⟩).reports = [] ∧
    ((∀ r ∈ reps, r.failing = true) →
      ∃ d, Input.run ⟨false, reps, start⟩ =
        .dataError d [] (reps.map Rep.url)) := by
  refine ⟨reports_runFrom_literal start reps [], fun h => ?_⟩
  obtain ⟨d, hd⟩ := runFrom_allfail false reps start [] h
  exact ⟨d, by simpa using hd⟩

/-- Witness for C10 at a concrete literal input whose two URLs both
fail. -/
theorem literal_input_no_report_witness :
    ((Input.run ⟨false, [⟨"a", .openFail⟩, ⟨"b", .stream [5] true⟩], 0⟩).reports = [] ∧
     ((∀ r ∈ [⟨"a", .openFail⟩, ⟨"b", .stream [5] true⟩], Rep.failing r = true) →
       ∃ d, Input.run ⟨false, [⟨"a", .openFail⟩, ⟨"b", .stream [5] true⟩], 0⟩ =
         .dataError d [] ["a", "b"])) ∧
    (∀ r ∈ [⟨"a", .openFail⟩, ⟨"b", .stream [5] true⟩], Rep.failing r = true) :=
  ⟨literal_input_no_report [⟨"a", .openFail⟩, ⟨"b", .stream [5] true⟩] 0, by decide⟩

end Disco
